import Mathlib

/-!
Shallow embedding of the Photo-Collage-Generator core
(`collage_generator.py`) and verification of its specification.

Images are modelled as a pair of integer dimensions together with a total
pixel function; PIL primitives whose exact rasterization is external to the
repository (LANCZOS resampling, Gaussian blur, ellipse / polygon /
rounded-rectangle rasterizers, reading a mask file from disk) are taken as
parameters bundled in `PILPrims`, so that every theorem holds for an
arbitrary implementation of those primitives.  Python `//` is modelled by
`Int.fdiv` (floor division), `math.ceil`/`math.sqrt` arithmetic by exact
integer arithmetic, and Python `int()` truncation of a real number by
`pyInt` (truncation toward zero).
-/

namespace Collage

/-- One RGBA pixel; channels are natural numbers (0..255 in practice). -/
structure RGBA where
  r : Nat
  g : Nat
  b : Nat
  a : Nat
deriving DecidableEq, Repr

/-- A PIL `RGBA` image: dimensions plus a total pixel function. -/
structure Img where
  width : Int
  height : Int
  pix : Int → Int → RGBA

/-- A PIL mode-`L` (single channel) image. -/
structure GrayImg where
  width : Int
  height : Int
  pix : Int → Int → Nat

/-- `Image.new('RGBA', (w, h), c)`. -/
def Img.new (w h : Int) (c : RGBA) : Img :=
  ⟨w, h, fun _ _ => c⟩

/-- `Image.new('L', (w, h), v)`. -/
def GrayImg.new (w h : Int) (v : Nat) : GrayImg :=
  ⟨w, h, fun _ _ => v⟩

/-- `dest.paste(src, (x, y))` with no mask: the source rectangle overwrites
the destination. -/
def Img.paste (dest src : Img) (x y : Int) : Img :=
  ⟨dest.width, dest.height, fun p q =>
    if x ≤ p ∧ p < x + src.width ∧ y ≤ q ∧ q < y + src.height then
      src.pix (p - x) (q - y)
    else dest.pix p q⟩

/-- Linear interpolation of one channel by a mask value (0..255). -/
def mixChan (s d m : Nat) : Nat :=
  (s * m + d * (255 - m)) / 255

/-- Per-pixel blend of source over destination through a mask value. -/
def blendPix (s d : RGBA) (m : Nat) : RGBA :=
  ⟨mixChan s.r d.r m, mixChan s.g d.g m, mixChan s.b d.b m, mixChan s.a d.a m⟩

/-- `dest.paste(src, (x, y), src)`: paste using the source image's own
alpha band as the compositing mask. -/
def Img.pasteAlpha (dest src : Img) (x y : Int) : Img :=
  ⟨dest.width, dest.height, fun p q =>
    if x ≤ p ∧ p < x + src.width ∧ y ≤ q ∧ q < y + src.height then
      blendPix (src.pix (p - x) (q - y)) (dest.pix p q) (src.pix (p - x) (q - y)).a
    else dest.pix p q⟩

/-- `img.putalpha(mask)`: replace the alpha band by the mask. -/
def Img.putalpha (img : Img) (m : GrayImg) : Img :=
  ⟨img.width, img.height, fun x y =>
    ⟨(img.pix x y).r, (img.pix x y).g, (img.pix x y).b, m.pix x y⟩⟩

/-- `img.crop((l, u, r, d))`. -/
def Img.crop (img : Img) (l u r d : Int) : Img :=
  ⟨r - l, d - u, fun x y => img.pix (l + x) (u + y)⟩

/-- `draw.rectangle([(0, 0), size], fill=255)` on an `L` image (PIL's
rectangle is inclusive of both corners). -/
def GrayImg.drawRect (m : GrayImg) (size : Int × Int) : GrayImg :=
  ⟨m.width, m.height, fun x y =>
    if 0 ≤ x ∧ x ≤ size.1 ∧ 0 ≤ y ∧ y ≤ size.2 then 255 else m.pix x y⟩

/-- The `CollageShape` enum. -/
inductive CollageShape where
  | SQUARE
  | RECTANGLE
  | CIRCLE
  | HEART
  | CUSTOM
deriving DecidableEq, Repr

/-- The `CollageSettings` dataclass.  Blur radius is kept as a natural
number (PIL rejects negative radii); offsets are signed. -/
structure CollageSettings where
  canvas_size : Int × Int
  dpi : Int
  background_color : RGBA
  outer_frame_thickness : Int
  inner_spacing : Int
  rounded_corners_radius : Int
  enable_rounded_corners : Bool
  enable_drop_shadow : Bool
  shadow_offset : Int × Int
  shadow_blur : Nat
  shadow_color : RGBA
  images_per_collage : Nat
  shape : CollageShape
  custom_mask_path : Option String

/-- PIL primitives external to the repository, abstracted: Gaussian blur,
LANCZOS resampling (RGBA and `L`), the ellipse / heart-polygon /
rounded-rectangle rasterizers, and loading a custom mask file. -/
structure PILPrims where
  gaussianBlur : Nat → Img → Img
  resample : Img → Int × Int → Img
  resampleGray : GrayImg → Int × Int → GrayImg
  ellipseDraw : GrayImg → Int → Int → Int → Int → GrayImg
  heartDraw : GrayImg → Int × Int → GrayImg
  roundedRect : Int × Int → Int → GrayImg
  loadMask : String → Option GrayImg

/-- A trivial, computable instantiation of the abstract PIL primitives,
used to evaluate the pipeline on concrete inputs. -/
def trivPrims : PILPrims where
  gaussianBlur := fun _ i => i
  resample := fun i t => ⟨t.1, t.2, i.pix⟩
  resampleGray := fun m t => ⟨t.1, t.2, m.pix⟩
  ellipseDraw := fun m _ _ _ _ => m
  heartDraw := fun m _ => m
  roundedRect := fun t _ => ⟨t.1, t.2, fun _ _ => 255⟩
  loadMask := fun _ => none

/-! ### Grid planner (`calculate_grid`) -/

/-- Linear search for the least `c ≥ start` with `n ≤ c * c`. -/
def ceilSqrtAux (n : Nat) : Nat → Nat → Nat
  | 0, c => c
  | fuel + 1, c => if n ≤ c * c then c else ceilSqrtAux n fuel (c + 1)

/-- `math.ceil(math.sqrt(n))` for a natural number: the least `c` with
`n ≤ c * c` (which is exactly the ceiling of the real square root of `n`;
see `ceilSqrt_spec`). -/
def ceilSqrt (n : Nat) : Nat :=
  ceilSqrtAux n n 0

/-- `math.ceil(a / b)` for natural numbers (`b > 0`). -/
def ceilDivNat (a b : Nat) : Nat :=
  (a + b - 1) / b

/-- The `while rows * cols < num_images: cols += 1` loop, with explicit
fuel (the loop body runs at most `fuel` times). -/
def gridLoop (fuel n rows cols : Nat) : Nat :=
  match fuel with
  | 0 => cols
  | fuel + 1 => if rows * cols < n then gridLoop fuel n rows (cols + 1) else cols

/-- `CollageGenerator.calculate_grid`: grid planning for `n` images. -/
def calculate_grid (n : Int) : Int × Int :=
  if n ≤ 0 then (0, 0)
  else
    ((ceilDivNat n.toNat (ceilSqrt n.toNat) : Int),
     (gridLoop n.toNat n.toNat (ceilDivNat n.toNat (ceilSqrt n.toNat))
        (ceilSqrt n.toNat) : Int))

/-! ### Group partitioner (`split_into_groups`) -/

/-- The slicing loop of `split_into_groups`, with fuel: each recursive step
models one `images[i:i+group_size]` slice. -/
def splitAux (size : Nat) : Nat → List α → List (List α)
  | _, [] => []
  | 0, _ :: _ => []
  | fuel + 1, x :: xs => (x :: xs).take size :: splitAux size fuel ((x :: xs).drop size)

/-- `CollageGenerator.split_into_groups` with `images_per_collage = size`. -/
def split_into_groups (size : Nat) (images : List α) : List (List α) :=
  splitAux size images.length images

/-! ### Image loader (`load_image_safely`) and the loading loop of
`create_collage` -/

/-- `CollageGenerator.load_image_safely`: decode one reference; on failure
append the reference to the failure log.  `decode` abstracts
`Image.open(...).convert('RGBA')`. -/
def load_image_safely (decode : String → Option Img) (failed : List String)
    (path : String) : Option Img × List String :=
  match decode path with
  | some img => (some img, failed)
  | none => (none, failed ++ [path])

/-- The loading loop at the top of `create_collage`: collect the images
that decode, and the references that fail, in input order. -/
def loadPhase (decode : String → Option Img) : List String → List Img × List String
  | [] => ([], [])
  | p :: ps =>
    let rest := loadPhase decode ps
    match decode p with
    | some img => (img :: rest.1, rest.2)
    | none => (rest.1, p :: rest.2)

/-! ### Cell renderer (`smart_crop`, `add_rounded_corners`,
`add_drop_shadow`) -/

/-- The crop rectangle `(left, upper, right, lower)` chosen by
`smart_crop`.  The float comparison `img_ratio > target_ratio` is modelled
exactly as `W * th > tw * H`, and `int(...)` of the positive float products
as floor division. -/
def cropBox (img : Img) (tw th : Int) : Int × Int × Int × Int :=
  if img.width * th > tw * img.height then
    let new_width := (img.height * tw).fdiv th
    let left := (img.width - new_width).fdiv 2
    (left, 0, left + new_width, img.height)
  else
    let new_height := (img.width * th).fdiv tw
    let top := (img.height - new_height).fdiv 2
    (0, top, img.width, top + new_height)

/-- `CollageGenerator.smart_crop`: center-crop to the target aspect ratio,
then resample to exactly the target size. -/
def smart_crop (resample : Img → Int × Int → Img) (img : Img)
    (target : Int × Int) : Img :=
  let b := cropBox img target.1 target.2
  resample (img.crop b.1 b.2.1 b.2.2.1 b.2.2.2) target

/-- `CollageGenerator.add_rounded_corners`: replace the alpha band by a
radius-rounded opaque rectangle mask (rasterizer abstracted). -/
def add_rounded_corners (P : PILPrims) (img : Img) (radius : Int) : Img :=
  img.putalpha (P.roundedRect (img.width, img.height) radius)

/-- The output size of `add_drop_shadow`. -/
def shadowSize (img : Img) (offset : Int × Int) (blur : Nat) : Int × Int :=
  (img.width + |offset.1| + 2 * (blur : Int),
   img.height + |offset.2| + 2 * (blur : Int))

/-- Lines 146-149 of `add_drop_shadow`, before the Gaussian blur: a solid
rectangle `shadow_layer` of the shadow color, the full size of the input
image, pasted (with no mask) into a transparent canvas at offset
`(blur + max(0, dx), blur + max(0, dy))`. -/
def shadow_before_blur (img : Img) (offset : Int × Int) (blur : Nat)
    (color : RGBA) : Img :=
  let sz := shadowSize img offset blur
  let shadow := Img.new sz.1 sz.2 ⟨0, 0, 0, 0⟩
  let shadow_layer := Img.new img.width img.height color
  shadow.paste shadow_layer ((blur : Int) + max 0 offset.1)
    ((blur : Int) + max 0 offset.2)

/-- `CollageGenerator.add_drop_shadow`. -/
def add_drop_shadow (gaussianBlur : Nat → Img → Img) (img : Img)
    (offset : Int × Int) (blur : Nat) (color : RGBA) : Img :=
  let sz := shadowSize img offset blur
  let shadow := gaussianBlur blur (shadow_before_blur img offset blur color)
  let result := (Img.new sz.1 sz.2 ⟨0, 0, 0, 0⟩).paste shadow 0 0
  let paste_x := (blur : Int) + max 0 (-offset.1)
  let paste_y := (blur : Int) + max 0 (-offset.2)
  result.pasteAlpha img paste_x paste_y

/-! ### Shape mask (`create_shape_mask`, `_draw_heart_shape`) -/

/-- `CollageGenerator.create_shape_mask`.  The ellipse and heart-polygon
rasterizers and mask-file loading are abstracted in `P`; the branch
structure mirrors the source, including the fact that the `CUSTOM` branch
is only taken when a mask path is present. -/
def create_shape_mask (P : PILPrims) (size : Int × Int)
    (shape : CollageShape) (custom_mask_path : Option String) : GrayImg :=
  let mask := GrayImg.new size.1 size.2 0
  match shape with
  | .SQUARE => mask.drawRect size
  | .RECTANGLE => mask.drawRect size
  | .CIRCLE =>
    let min_dim := min size.1 size.2
    let cx := size.1.fdiv 2
    let cy := size.2.fdiv 2
    let radius := min_dim.fdiv 2
    P.ellipseDraw mask (cx - radius) (cy - radius) (cx + radius) (cy + radius)
  | .HEART => P.heartDraw mask size
  | .CUSTOM =>
    match custom_mask_path with
    | some path =>
      match P.loadMask path with
      | some custom_mask => P.resampleGray custom_mask size
      | none => mask.drawRect size
    | none => mask

/-- Python `int()` applied to a real number: truncation toward zero. -/
noncomputable def pyInt (v : ℝ) : Int :=
  if 0 ≤ v then ⌊v⌋ else ⌈v⌉

/-- One vertex of `_draw_heart_shape` at parameter `t` (the source samples
`t = math.radians(i)` for `i = 0, ..., 359`); `center_x = width // 2`,
`scale = min(width, height) / 2`, `x = 16 sin^3 t`,
`y = -(13 cos t - 5 cos 2t - 2 cos 3t - cos 4t)`, and the vertex is
`(center_x + int(x * scale / 18), int(height * 0.45) + int(y * scale / 18))`. -/
noncomputable def heartPoint (W H : Int) (t : ℝ) : Int × Int :=
  (W.fdiv 2 + pyInt (16 * Real.sin t ^ 3 * (((min W H : Int) : ℝ) / 2) / 18),
   pyInt ((H : ℝ) * 0.45) +
     pyInt (-(13 * Real.cos t - 5 * Real.cos (2 * t) - 2 * Real.cos (3 * t)
       - Real.cos (4 * t)) * (((min W H : Int) : ℝ) / 2) / 18))

/-- The 360-point vertex list of `_draw_heart_shape`. -/
noncomputable def heartPoints (W H : Int) : List (Int × Int) :=
  (List.range 360).map (fun i => heartPoint W H ((i : ℝ) * Real.pi / 180))

/-! ### Canvas composer (`create_collage`) -/

/-- The shadow padding reserved per cell side (lines 236-241). -/
def shadowPad (S : CollageSettings) : Int :=
  if S.enable_drop_shadow then
    (S.shadow_blur : Int) + max |S.shadow_offset.1| |S.shadow_offset.2|
  else 0

/-- Cell size `(cell_w, cell_h)` computed from the canvas, frame, spacing
and the planned grid for `n` images (lines 226-234). -/
def cellDims (S : CollageSettings) (n : Nat) : Int × Int :=
  let rc := calculate_grid (n : Int)
  let usable_w := S.canvas_size.1 - 2 * S.outer_frame_thickness - (rc.2 - 1) * S.inner_spacing
  let usable_h := S.canvas_size.2 - 2 * S.outer_frame_thickness - (rc.1 - 1) * S.inner_spacing
  (usable_w.fdiv rc.2, usable_h.fdiv rc.1)

/-- Content size and shadow padding per cell, including the degenerate-size
fallback (lines 243-249): `(img_w, img_h, shadow_padding)`. -/
def contentParams (S : CollageSettings) (cell_w cell_h : Int) : Int × Int × Int :=
  let pad := shadowPad S
  let img_w := cell_w - 2 * pad
  let img_h := cell_h - 2 * pad
  if img_w ≤ 0 ∨ img_h ≤ 0 then
    (max 10 (cell_w - 10), max 10 (cell_h - 10), 5)
  else
    (img_w, img_h, pad)

/-- The per-cell processing of one loaded image (lines 257-271): smart
crop, optional rounded corners, optional drop shadow. -/
def renderCell (P : PILPrims) (S : CollageSettings) (params : Int × Int × Int)
    (img : Img) : Img :=
  let cropped := smart_crop P.resample img (params.1, params.2.1)
  let rounded :=
    if S.enable_rounded_corners then
      add_rounded_corners P cropped S.rounded_corners_radius
    else cropped
  if S.enable_drop_shadow then
    add_drop_shadow P.gaussianBlur rounded S.shadow_offset S.shadow_blur S.shadow_color
  else rounded

/-- The placement loop of `create_collage` (lines 253-276): every cell of
the group is rendered with the same `params` triple. -/
def placeCells (P : PILPrims) (S : CollageSettings) (cols cell_w cell_h : Int)
    (params : Int × Int × Int) : Nat → Img → List Img → Img
  | _, canvas, [] => canvas
  | idx, canvas, img :: rest =>
    let processed := renderCell P S params img
    let row := (idx : Int).fdiv cols
    let col := (idx : Int).fmod cols
    let x := S.outer_frame_thickness + col * (cell_w + S.inner_spacing)
      + (cell_w - processed.width).fdiv 2
    let y := S.outer_frame_thickness + row * (cell_h + S.inner_spacing)
      + (cell_h - processed.height).fdiv 2
    placeCells P S cols cell_w cell_h params (idx + 1)
      (canvas.pasteAlpha processed x y) rest

/-- Lines 278-288 of `create_collage`: for non-rectangular shapes, build
the shape mask, re-paste the canvas onto a transparent background and
replace its alpha band by the mask. -/
def applyShapeMask (P : PILPrims) (S : CollageSettings) (canvas : Img) : Img :=
  let mask := create_shape_mask P S.canvas_size S.shape S.custom_mask_path
  let bg := Img.new S.canvas_size.1 S.canvas_size.2 ⟨0, 0, 0, 0⟩
  (bg.paste canvas 0 0).putalpha mask

/-- Composition of one group with a given `(img_w, img_h, shadow_padding)`
triple: by construction the same triple is used for every cell of the
group. -/
def composeCanvasWith (P : PILPrims) (S : CollageSettings) (loaded : List Img)
    (params : Int × Int × Int) : Img :=
  let rc := calculate_grid (loaded.length : Int)
  let cd := cellDims S loaded.length
  let canvas := Img.new S.canvas_size.1 S.canvas_size.2 S.background_color
  let placed := placeCells P S rc.2 cd.1 cd.2 params 0 canvas loaded
  if S.shape ≠ CollageShape.SQUARE ∧ S.shape ≠ CollageShape.RECTANGLE then
    applyShapeMask P S placed
  else placed

/-- Composition of one group of successfully loaded images
(lines 223-290 of `create_collage`). -/
def composeCanvas (P : PILPrims) (S : CollageSettings) (loaded : List Img) : Img :=
  composeCanvasWith P S loaded
    (contentParams S (cellDims S loaded.length).1 (cellDims S loaded.length).2)

/-- `CollageGenerator.create_collage`: load every reference of the group,
recording failures; return `none` when no image decoded, otherwise the
composed canvas.  The second component is the updated failure log. -/
def create_collage (P : PILPrims) (S : CollageSettings)
    (decode : String → Option Img) (failed : List String)
    (images : List String) : Option Img × List String :=
  let L := loadPhase decode images
  let failed' := failed ++ L.2
  if L.1.isEmpty then (none, failed')
  else (some (composeCanvas P S L.1), failed')

/-! ### Exporter (`save_collage`) -/

/-- The two output formats of `save_collage`. -/
inductive SaveFormat where
  | png
  | jpg
deriving DecidableEq, Repr

/-- `CollageGenerator.save_collage`, modelled at the level of its control
flow: the PNG write runs first and the JPG write second, with no exception
handling, so an exception in a write propagates immediately.  The inputs
are the outcomes the two underlying `Image.save` calls would have; the
result is the list of formats whose write was actually attempted, in
order, together with the propagated exception (if any). -/
def save_collage (pngWrite jpgWrite : Except String Unit) :
    List SaveFormat × Option String :=
  match pngWrite with
  | .error e => ([SaveFormat.png], some e)
  | .ok _ =>
    match jpgWrite with
    | .error e => ([SaveFormat.png, SaveFormat.jpg], some e)
    | .ok _ => ([SaveFormat.png, SaveFormat.jpg], none)

/-- C6 counterexample: `transparentProbe` is a 1x1 image whose single
pixel is fully transparent (alpha 0). -/
def transparentProbe : Img :=
  ⟨1, 1, fun _ _ => ⟨10, 20, 30, 0⟩⟩

/-- A settings value whose cell geometry triggers the degenerate-size
fallback: a 50x50 canvas with frame 20 leaves 10x10 cells, while the
enabled shadow reserves `10 + max 5 5 = 15` per side. -/
def fallbackSettings : CollageSettings where
  canvas_size := (50, 50)
  dpi := 300
  background_color := ⟨255, 255, 255, 255⟩
  outer_frame_thickness := 20
  inner_spacing := 5
  rounded_corners_radius := 10
  enable_rounded_corners := true
  enable_drop_shadow := true
  shadow_offset := (5, 5)
  shadow_blur := 10
  shadow_color := ⟨0, 0, 0, 80⟩
  images_per_collage := 50
  shape := CollageShape.SQUARE
  custom_mask_path := none

/-- A settings value selecting the Custom shape with no mask path. -/
def customNoneSettings : CollageSettings where
  canvas_size := (2, 2)
  dpi := 300
  background_color := ⟨255, 255, 255, 255⟩
  outer_frame_thickness := 0
  inner_spacing := 0
  rounded_corners_radius := 0
  enable_rounded_corners := false
  enable_drop_shadow := false
  shadow_offset := (0, 0)
  shadow_blur := 0
  shadow_color := ⟨0, 0, 0, 80⟩
  images_per_collage := 50
  shape := CollageShape.CUSTOM
  custom_mask_path := none

/-! ## Theorems -/

/-! ### C1: grid planning -/

theorem ceilSqrtAux_spec (n : Nat) :
    ∀ (fuel c : Nat), (∀ d < c, d * d < n) → n ≤ (c + fuel) * (c + fuel) →
      n ≤ ceilSqrtAux n fuel c * ceilSqrtAux n fuel c ∧
        ∀ d < ceilSqrtAux n fuel c, d * d < n := by
  intro fuel
  induction fuel with
  | zero =>
    intro c hlow hhigh
    simp only [ceilSqrtAux]
    exact ⟨by simpa using hhigh, hlow⟩
  | succ fuel ih =>
    intro c hlow hhigh
    by_cases hc : n ≤ c * c
    · have h1 : ceilSqrtAux n (fuel + 1) c = c := by simp [ceilSqrtAux, hc]
      rw [h1]
      exact ⟨hc, hlow⟩
    · have hlow' : ∀ d < c + 1, d * d < n := by
        intro d hd
        rcases Nat.lt_succ_iff_lt_or_eq.1 hd with h | h
        · exact hlow d h
        · subst h
          omega
      have hhigh' : n ≤ (c + 1 + fuel) * (c + 1 + fuel) := by
        have h2 : c + 1 + fuel = c + (fuel + 1) := by omega
        rwa [h2]
      have h1 : ceilSqrtAux n (fuel + 1) c = ceilSqrtAux n fuel (c + 1) := by
        simp [ceilSqrtAux, hc]
      rw [h1]
      exact ih (c + 1) hlow' hhigh'

/-- `ceilSqrt n` is the least `c` with `c * c ≥ n`, i.e. the ceiling of
the real square root of `n`. -/
theorem ceilSqrt_spec (n : Nat) :
    n ≤ ceilSqrt n * ceilSqrt n ∧ ∀ d < ceilSqrt n, d * d < n := by
  have hn : n ≤ (0 + n) * (0 + n) := by
    rcases Nat.eq_zero_or_pos n with h | h
    · simp [h]
    · simpa using Nat.le_mul_of_pos_left n h
  exact ceilSqrtAux_spec n n 0 (by omega) hn

theorem ceilSqrt_pos {n : Nat} (h : 0 < n) : 0 < ceilSqrt n := by
  rcases Nat.eq_zero_or_pos (ceilSqrt n) with h0 | h0
  · have := (ceilSqrt_spec n).1
    rw [h0] at this
    omega
  · exact h0

theorem le_ceilDivNat_mul {a b : Nat} (hb : 0 < b) : a ≤ ceilDivNat a b * b := by
  have h := le_smul_ceilDiv (α := ℕ) (β := ℕ) hb (b := a)
  rw [smul_eq_mul] at h
  calc a ≤ b * (a ⌈/⌉ b) := h
    _ = a ⌈/⌉ b * b := Nat.mul_comm _ _
    _ = ceilDivNat a b * b := by rw [Nat.ceilDiv_eq_add_pred_div]; rfl

theorem gridLoop_exit {fuel n rows cols : Nat} (h : ¬ rows * cols < n) :
    gridLoop fuel n rows cols = cols := by
  cases fuel <;> simp [gridLoop, h]

/-- C1: for every `n > 0`, `calculate_grid n` returns `(rows, cols)` with
`cols = ceil(sqrt n)` (the least `c` with `c * c ≥ n`, which is the
candidate the incrementing search starts from and already satisfies the
exit condition `rows * cols ≥ n`), `rows = ceil(n / cols)`, and
`rows * cols ≥ n`; for every `n ≤ 0` it returns `(0, 0)`. -/
theorem calculate_grid_spec (n : Int) :
    (n ≤ 0 → calculate_grid n = (0, 0)) ∧
    (0 < n →
      (calculate_grid n).2 = (ceilSqrt n.toNat : Int) ∧
      (n.toNat ≤ ceilSqrt n.toNat * ceilSqrt n.toNat ∧
        ∀ d < ceilSqrt n.toNat, d * d < n.toNat) ∧
      (calculate_grid n).1 = (ceilDivNat n.toNat (ceilSqrt n.toNat) : Int) ∧
      n ≤ (calculate_grid n).1 * (calculate_grid n).2) := by
  constructor
  · intro h
    simp [calculate_grid, h]
  · intro h
    have hn : ¬ n ≤ 0 := not_le.2 h
    have hm : 0 < n.toNat := by omega
    have hcols : 0 < ceilSqrt n.toNat := ceilSqrt_pos hm
    have hkey : n.toNat ≤ ceilDivNat n.toNat (ceilSqrt n.toNat) * ceilSqrt n.toNat :=
      le_ceilDivNat_mul hcols
    have hloop : gridLoop n.toNat n.toNat (ceilDivNat n.toNat (ceilSqrt n.toNat))
        (ceilSqrt n.toNat) = ceilSqrt n.toNat := gridLoop_exit (by omega)
    rw [calculate_grid, if_neg hn]
    refine ⟨by rw [hloop], ceilSqrt_spec n.toNat, rfl, ?_⟩
    rw [hloop]
    have hcast : (n.toNat : Int) ≤
        ((ceilDivNat n.toNat (ceilSqrt n.toNat) * ceilSqrt n.toNat : Nat) : Int) :=
      Int.ofNat_le.2 hkey
    push_cast at hcast
    rwa [Int.toNat_of_nonneg h.le] at hcast

/-- Witness for C1 at the spec's example `n = 50`:
`cols = ceil(sqrt 50) = 8`, `rows = 7`, capacity `56 ≥ 50`. -/
theorem calculate_grid_witness :
    calculate_grid 50 = (7, 8) ∧
    (50 : Int) ≤ (calculate_grid 50).1 * (calculate_grid 50).2 :=
  ⟨by decide, ((calculate_grid_spec 50).2 (by decide)).2.2.2⟩

/-! ### C3: group partitioning -/

theorem splitAux_flatten {α : Type} (size : Nat) (hsize : 0 < size) :
    ∀ (fuel : Nat) (xs : List α), xs.length ≤ fuel →
      (splitAux size fuel xs).flatten = xs := by
  intro fuel
  induction fuel with
  | zero =>
    intro xs hlen
    have hx : xs = [] := List.length_eq_zero.1 (by omega)
    subst hx
    rfl
  | succ fuel ih =>
    intro xs hlen
    cases xs with
    | nil => rfl
    | cons x xs =>
      have hrec : ((x :: xs).drop size).length ≤ fuel := by
        rw [List.length_drop]
        simp only [List.length_cons] at hlen ⊢
        omega
      simp only [splitAux, List.flatten_cons, ih _ hrec, List.take_append_drop]

theorem splitAux_eq_nil_iff {α : Type} (size fuel : Nat) (xs : List α) :
    splitAux size fuel xs = [] ↔ xs = [] ∨ fuel = 0 := by
  match fuel, xs with
  | _, [] => simp [splitAux]
  | 0, x :: xs => simp [splitAux]
  | fuel + 1, x :: xs => simp [splitAux]

theorem splitAux_dropLast {α : Type} (size : Nat) (hsize : 0 < size) :
    ∀ (fuel : Nat) (xs : List α), xs.length ≤ fuel →
      ∀ g ∈ (splitAux size fuel xs).dropLast, g.length = size := by
  intro fuel
  induction fuel with
  | zero =>
    intro xs hlen
    have hx : xs = [] := List.length_eq_zero.1 (by omega)
    subst hx
    simp [splitAux]
  | succ fuel ih =>
    intro xs hlen
    cases xs with
    | nil => simp [splitAux]
    | cons x xs =>
      simp only [splitAux]
      by_cases hrest : splitAux size fuel ((x :: xs).drop size) = []
      · rw [hrest]
        simp
      · have hdrop : (x :: xs).drop size ≠ [] := by
          intro hd
          exact hrest ((splitAux_eq_nil_iff size fuel _).2 (Or.inl hd))
        have hlong : size < (x :: xs).length := by
          by_contra hle
          exact hdrop (List.drop_eq_nil_of_le (by omega))
        have htake : ((x :: xs).take size).length = size := by
          rw [List.length_take]
          omega
        rw [List.dropLast_cons_of_ne_nil hrest]
        intro g hg
        rcases List.mem_cons.1 hg with h | h
        · rw [h, htake]
        · have hrec : ((x :: xs).drop size).length ≤ fuel := by
            rw [List.length_drop]
            simp only [List.length_cons] at hlen ⊢
            omega
          exact ih _ hrec g h

theorem splitAux_getLast {α : Type} (size : Nat) (hsize : 0 < size) :
    ∀ (fuel : Nat) (xs : List α), xs.length ≤ fuel → xs ≠ [] →
      ∃ g, (splitAux size fuel xs).getLast? = some g ∧
        1 ≤ g.length ∧ g.length ≤ size := by
  intro fuel
  induction fuel with
  | zero =>
    intro xs hlen hne
    exact absurd (List.length_eq_zero.1 (by omega)) hne
  | succ fuel ih =>
    intro xs hlen hne
    cases xs with
    | nil => exact absurd rfl hne
    | cons x xs =>
      simp only [splitAux]
      by_cases hrest : splitAux size fuel ((x :: xs).drop size) = []
      · rw [hrest]
        refine ⟨(x :: xs).take size, rfl, ?_, ?_⟩
        · rw [List.length_take]
          simp only [List.length_cons]
          omega
        · rw [List.length_take]
          omega
      · have hdrop : (x :: xs).drop size ≠ [] := by
          intro hd
          exact hrest ((splitAux_eq_nil_iff size fuel _).2 (Or.inl hd))
        have hrec : ((x :: xs).drop size).length ≤ fuel := by
          rw [List.length_drop]
          simp only [List.length_cons] at hlen ⊢
          omega
        obtain ⟨g, hg, h1, h2⟩ := ih _ hrec hdrop
        refine ⟨g, ?_, h1, h2⟩
        rw [List.getLast?_cons, hg]
        rfl

/-- C3: for every list of references and every `size > 0`,
`split_into_groups` yields groups whose concatenation is exactly the
input, every group but the last has length exactly `size`, and the last
group of a non-empty input has length between 1 and `size`. -/
theorem split_into_groups_spec {α : Type} (size : Nat) (hsize : 0 < size)
    (refs : List α) :
    (split_into_groups size refs).flatten = refs ∧
    (∀ g ∈ (split_into_groups size refs).dropLast, g.length = size) ∧
    (refs ≠ [] → ∃ g, (split_into_groups size refs).getLast? = some g ∧
      1 ≤ g.length ∧ g.length ≤ size) :=
  ⟨splitAux_flatten size hsize refs.length refs le_rfl,
   splitAux_dropLast size hsize refs.length refs le_rfl,
   fun hne => splitAux_getLast size hsize refs.length refs le_rfl hne⟩

/-- Witness for C3 at the spec's example: 105 items with batch size 50
(the group lengths are then `[50, 50, 5]`). -/
theorem split_into_groups_witness :
    (split_into_groups 50 (List.range 105)).map List.length = [50, 50, 5] ∧
    (split_into_groups 50 (List.range 105)).flatten = List.range 105 :=
  ⟨by decide, (split_into_groups_spec 50 (by decide) (List.range 105)).1⟩

/-! ### C2: per-image decode failures in `create_collage` -/

theorem loadPhase_eq (decode : String → Option Img) (refs : List String) :
    loadPhase decode refs
      = (refs.filterMap decode, refs.filter (fun r => (decode r).isNone)) := by
  induction refs with
  | nil => rfl
  | cons p ps ih =>
    simp only [loadPhase, ih, List.filterMap_cons, List.filter_cons]
    cases hd : decode p <;> simp [hd]

/-- C2: `create_collage` returns `none` exactly when every reference of
the group failed to decode; each failing reference (and only those) is
appended, in order, to the failure log; and the canvas, when produced, is
composed from the successful decodes of the whole group, so one failure
never prevents the remaining images from being processed. -/
theorem create_collage_failure_spec (P : PILPrims) (S : CollageSettings)
    (decode : String → Option Img) (failed : List String) (refs : List String) :
    ((create_collage P S decode failed refs).1 = none ↔
      ∀ r ∈ refs, decode r = none) ∧
    (create_collage P S decode failed refs).2
      = failed ++ refs.filter (fun r => (decode r).isNone) ∧
    (create_collage P S decode failed refs).1
      = (if (refs.filterMap decode).isEmpty then none
         else some (composeCanvas P S (refs.filterMap decode))) := by
  have h := loadPhase_eq decode refs
  refine ⟨?_, ?_, ?_⟩
  · simp only [create_collage, h]
    rcases hfm : refs.filterMap decode with _ | ⟨a, l⟩
    · simp only [hfm, List.isEmpty_nil, if_true]
      simp only [true_iff]
      exact List.filterMap_eq_nil_iff.1 hfm
    · simp only [hfm, List.isEmpty_cons, Bool.false_eq_true, if_false]
      constructor
      · intro hcontr
        exact absurd hcontr (by simp)
      · intro hall
        rw [List.filterMap_eq_nil_iff.2 hall] at hfm
        cases hfm
  · simp only [create_collage, h]
    split <;> rfl
  · simp only [create_collage, h]
    split <;> rfl

/-! ### C4: smart cropping -/

/-- C4: for positive source dimensions and a positive target, `smart_crop`
returns an image of exactly the target dimensions, obtained by resampling
a crop window that lies inside the source, spans the full source extent in
one dimension, and is centered (via floor division) in the source. -/
theorem smart_crop_spec (resample : Img → Int × Int → Img)
    (hres : ∀ i t, (resample i t).width = t.1 ∧ (resample i t).height = t.2)
    (img : Img) (tw th : Int) (hW : 0 < img.width) (hH : 0 < img.height)
    (htw : 0 < tw) (hth : 0 < th) :
    (smart_crop resample img (tw, th)).width = tw ∧
    (smart_crop resample img (tw, th)).height = th ∧
    0 ≤ (cropBox img tw th).1 ∧
    0 ≤ (cropBox img tw th).2.1 ∧
    (cropBox img tw th).2.2.1 ≤ img.width ∧
    (cropBox img tw th).2.2.2 ≤ img.height ∧
    ((cropBox img tw th).2.2.2 - (cropBox img tw th).2.1 = img.height ∨
      (cropBox img tw th).2.2.1 - (cropBox img tw th).1 = img.width) ∧
    (cropBox img tw th).1
      = (img.width - ((cropBox img tw th).2.2.1 - (cropBox img tw th).1)).fdiv 2 ∧
    (cropBox img tw th).2.1
      = (img.height - ((cropBox img tw th).2.2.2 - (cropBox img tw th).2.1)).fdiv 2 := by
  refine ⟨(hres _ _).1, (hres _ _).2, ?_⟩
  unfold cropBox
  by_cases hcond : img.width * th > tw * img.height
  · simp only [if_pos hcond]
    set nw := (img.height * tw).fdiv th with hnw
    have hnw0 : 0 ≤ nw := Int.fdiv_nonneg (by positivity) hth.le
    have hnwW : nw < img.width := by
      rw [hnw, Int.fdiv_eq_ediv _ hth.le]
      rw [Int.ediv_lt_iff_lt_mul hth]
      calc img.height * tw = tw * img.height := mul_comm _ _
        _ < img.width * th := hcond
    set left := (img.width - nw).fdiv 2 with hleft
    have hleft0 : 0 ≤ left := Int.fdiv_nonneg (by omega) (by omega)
    have hleft2 : left ≤ img.width - nw := by
      rw [hleft, Int.fdiv_eq_ediv _ (by omega)]
      exact Int.ediv_le_self 2 (by omega)
    refine ⟨hleft0, le_rfl, by omega, le_rfl, Or.inl (by ring), ?_, ?_⟩
    · have h1 : left + nw - left = nw := by ring
      rw [h1]
    · have h2 : img.height - (img.height - 0) = 0 := by ring
      rw [h2]
      rfl
  · simp only [if_neg hcond]
    push_neg at hcond
    set nh := (img.width * th).fdiv tw with hnh
    have hnh0 : 0 ≤ nh := Int.fdiv_nonneg (by positivity) htw.le
    have hnhH : nh ≤ img.height := by
      rw [hnh, Int.fdiv_eq_ediv _ htw.le]
      have h1 : img.width * th ≤ tw * img.height := hcond
      calc img.width * th / tw ≤ tw * img.height / tw := Int.ediv_le_ediv htw h1
        _ = img.height := Int.mul_ediv_cancel_left _ (by omega)
    set top := (img.height - nh).fdiv 2 with htop
    have htop0 : 0 ≤ top := Int.fdiv_nonneg (by omega) (by omega)
    have htop2 : top ≤ img.height - nh := by
      rw [htop, Int.fdiv_eq_ediv _ (by omega)]
      exact Int.ediv_le_self 2 (by omega)
    refine ⟨le_rfl, htop0, le_rfl, by omega, Or.inr (by ring), ?_, ?_⟩
    · have h1 : img.width - (img.width - 0) = 0 := by ring
      rw [h1]
      rfl
    · have h2 : top + nh - top = nh := by ring
      rw [h2]

/-- Witness for C4: a 4x3 source cropped to a 2x2 target via a concrete
resampler. -/
theorem smart_crop_witness :
    (smart_crop trivPrims.resample (Img.new 4 3 ⟨1, 2, 3, 255⟩) (2, 2)).width = 2 ∧
    (smart_crop trivPrims.resample (Img.new 4 3 ⟨1, 2, 3, 255⟩) (2, 2)).height = 2 ∧
    0 ≤ (cropBox (Img.new 4 3 ⟨1, 2, 3, 255⟩) 2 2).1 := by
  have h := smart_crop_spec trivPrims.resample (fun i t => ⟨rfl, rfl⟩)
    (Img.new 4 3 ⟨1, 2, 3, 255⟩) 2 2 (by decide) (by decide) (by decide) (by decide)
  exact ⟨h.1, h.2.1, h.2.2.1⟩

/-! ### C5 and C6: drop shadow -/

theorem mixChan_opaque (s d : Nat) : mixChan s d 255 = s := by
  unfold mixChan
  omega

theorem blendPix_opaque (s d : RGBA) : blendPix s d 255 = s := by
  cases s
  simp [blendPix, mixChan_opaque]

/-- C5: `add_drop_shadow` returns an image of exactly
`(w + |dx| + 2 blur, h + |dy| + 2 blur)`, built by pasting the original
image, with its own alpha as compositing mask, at
`(blur + max 0 (-dx), blur + max 0 (-dy))` on top of the blurred shadow
canvas; in particular every fully opaque source pixel reappears unchanged
at that offset. -/
theorem add_drop_shadow_spec (gb : Nat → Img → Img) (img : Img)
    (dx dy : Int) (blur : Nat) (color : RGBA) :
    (add_drop_shadow gb img (dx, dy) blur color).width
      = img.width + |dx| + 2 * (blur : Int) ∧
    (add_drop_shadow gb img (dx, dy) blur color).height
      = img.height + |dy| + 2 * (blur : Int) ∧
    add_drop_shadow gb img (dx, dy) blur color
      = ((Img.new (img.width + |dx| + 2 * (blur : Int))
            (img.height + |dy| + 2 * (blur : Int)) ⟨0, 0, 0, 0⟩).paste
          (gb blur (shadow_before_blur img (dx, dy) blur color)) 0 0).pasteAlpha
          img ((blur : Int) + max 0 (-dx)) ((blur : Int) + max 0 (-dy)) ∧
    (∀ x y, 0 ≤ x → x < img.width → 0 ≤ y → y < img.height →
      (img.pix x y).a = 255 →
      (add_drop_shadow gb img (dx, dy) blur color).pix
        ((blur : Int) + max 0 (-dx) + x) ((blur : Int) + max 0 (-dy) + y)
        = img.pix x y) := by
  refine ⟨rfl, rfl, rfl, ?_⟩
  intro x y hx0 hxw hy0 hyh ha
  show (Img.pasteAlpha _ img _ _).pix _ _ = _
  unfold Img.pasteAlpha
  dsimp only
  set px := (blur : Int) + max 0 (-dx) with hpx
  set py := (blur : Int) + max 0 (-dy) with hpy
  have hin : px ≤ px + x ∧ px + x < px + img.width ∧
      py ≤ py + y ∧ py + y < py + img.height := by omega
  rw [if_pos hin]
  have hxx : px + x - px = x := by ring
  have hyy : py + y - py = y := by ring
  rw [hxx, hyy, ha, blendPix_opaque]

/-- C6 is false on the code: the pre-blur shadow layer is pasted with no
mask, so a shadow pixel is painted (here with the shadow color's alpha 80)
at the offset position of a source pixel whose alpha is 0, i.e. the shadow
covers the full bounding rectangle, not just the opaque alpha shape. -/
theorem shadow_silhouette_cex :
    ((shadow_before_blur transparentProbe (0, 0) 0 ⟨0, 0, 0, 80⟩).pix 0 0).a = 80 ∧
    (transparentProbe.pix 0 0).a = 0 :=
  ⟨rfl, rfl⟩

/-- C6 amended: before blurring, the shadow painted behind the image is a
solid rectangle of the shadow color covering the image's full bounding
box, offset by `(blur + max 0 dx, blur + max 0 dy)`, regardless of the
image's alpha channel; outside that rectangle the shadow canvas is fully
transparent. -/
theorem shadow_before_blur_spec (img : Img) (dx dy : Int) (blur : Nat)
    (color : RGBA) :
    (∀ x y, 0 ≤ x → x < img.width → 0 ≤ y → y < img.height →
      (shadow_before_blur img (dx, dy) blur color).pix
        ((blur : Int) + max 0 dx + x) ((blur : Int) + max 0 dy + y) = color) ∧
    (∀ p q, (p < (blur : Int) + max 0 dx ∨ (blur : Int) + max 0 dx + img.width ≤ p ∨
        q < (blur : Int) + max 0 dy ∨ (blur : Int) + max 0 dy + img.height ≤ q) →
      (shadow_before_blur img (dx, dy) blur color).pix p q = ⟨0, 0, 0, 0⟩) := by
  constructor
  · intro x y hx0 hxw hy0 hyh
    unfold shadow_before_blur Img.paste
    dsimp only [Img.new]
    set px := (blur : Int) + max 0 dx with hpx
    set py := (blur : Int) + max 0 dy with hpy
    have hin : px ≤ px + x ∧ px + x < px + img.width ∧
        py ≤ py + y ∧ py + y < py + img.height := by omega
    rw [if_pos hin]
  · intro p q hout
    unfold shadow_before_blur Img.paste
    dsimp only [Img.new]
    set px := (blur : Int) + max 0 dx with hpx
    set py := (blur : Int) + max 0 dy with hpy
    have hnotin : ¬ (px ≤ p ∧ p < px + img.width ∧ py ≤ q ∧ q < py + img.height) := by
      omega
    rw [if_neg hnotin]

/-- Witness for the amended C6 statement: a concrete 2x2 opaque image with
offset `(1, -2)` and blur 3. -/
theorem shadow_before_blur_witness :
    (shadow_before_blur (Img.new 2 2 ⟨9, 9, 9, 255⟩) (1, -2) 3 ⟨0, 0, 0, 80⟩).pix
      ((3 : Int) + max 0 1 + 0) ((3 : Int) + max 0 (-2) + 1) = ⟨0, 0, 0, 80⟩ :=
  (shadow_before_blur_spec (Img.new 2 2 ⟨9, 9, 9, 255⟩) 1 (-2) 3 ⟨0, 0, 0, 80⟩).1
    0 1 (by decide) (by decide) (by decide) (by decide)

/-- Witness for C5: a concrete 1x1 opaque image with offset `(-2, 3)` and
blur 1; the opaque pixel reappears at the paste position. -/
theorem add_drop_shadow_witness :
    (add_drop_shadow trivPrims.gaussianBlur (Img.new 1 1 ⟨7, 8, 9, 255⟩)
      ((-2 : Int), (3 : Int)) 1 ⟨0, 0, 0, 80⟩).width = 1 + |(-2 : Int)| + 2 * 1 ∧
    (add_drop_shadow trivPrims.gaussianBlur (Img.new 1 1 ⟨7, 8, 9, 255⟩)
      ((-2 : Int), (3 : Int)) 1 ⟨0, 0, 0, 80⟩).pix
      ((1 : Int) + max 0 (-(-2 : Int)) + 0) ((1 : Int) + max 0 (-(3 : Int)) + 0)
      = ⟨7, 8, 9, 255⟩ := by
  have h := add_drop_shadow_spec trivPrims.gaussianBlur (Img.new 1 1 ⟨7, 8, 9, 255⟩)
    (-2) 3 1 ⟨0, 0, 0, 80⟩
  exact ⟨h.1, h.2.2.2 0 0 (by decide) (by decide) (by decide) (by decide) rfl⟩

/-! ### C7: degenerate-size fallback -/

/-- C7: whenever the per-axis content size `cell - 2 * shadow_padding` is
nonpositive on either axis, the whole group is composed with the fallback
parameter triple `(max 10 (cell_w - 10), max 10 (cell_h - 10), 5)` — a
content size of at least 10x10 and the fixed shadow-padding value 5 —
passed unchanged to the placement of every cell, and composition still
produces a canvas (the composer is a total function). -/
theorem compose_fallback_spec (P : PILPrims) (S : CollageSettings)
    (loaded : List Img)
    (htrig : (cellDims S loaded.length).1 - 2 * shadowPad S ≤ 0 ∨
      (cellDims S loaded.length).2 - 2 * shadowPad S ≤ 0) :
    contentParams S (cellDims S loaded.length).1 (cellDims S loaded.length).2
      = (max 10 ((cellDims S loaded.length).1 - 10),
         max 10 ((cellDims S loaded.length).2 - 10), 5) ∧
    10 ≤ max 10 ((cellDims S loaded.length).1 - 10) ∧
    10 ≤ max 10 ((cellDims S loaded.length).2 - 10) ∧
    composeCanvas P S loaded
      = composeCanvasWith P S loaded
          (max 10 ((cellDims S loaded.length).1 - 10),
           max 10 ((cellDims S loaded.length).2 - 10), 5) := by
  have hcp : contentParams S (cellDims S loaded.length).1 (cellDims S loaded.length).2
      = (max 10 ((cellDims S loaded.length).1 - 10),
         max 10 ((cellDims S loaded.length).2 - 10), 5) := by
    unfold contentParams
    rw [if_pos htrig]
  refine ⟨hcp, le_max_left _ _, le_max_left _ _, ?_⟩
  unfold composeCanvas
  rw [hcp]

/-- Witness for C7: `fallbackSettings` with a single loaded image. -/
theorem compose_fallback_witness :
    ((cellDims fallbackSettings ([Img.new 1 1 ⟨0, 0, 0, 255⟩]).length).1
        - 2 * shadowPad fallbackSettings ≤ 0 ∨
      (cellDims fallbackSettings ([Img.new 1 1 ⟨0, 0, 0, 255⟩]).length).2
        - 2 * shadowPad fallbackSettings ≤ 0) ∧
    (contentParams fallbackSettings
        (cellDims fallbackSettings ([Img.new 1 1 ⟨0, 0, 0, 255⟩]).length).1
        (cellDims fallbackSettings ([Img.new 1 1 ⟨0, 0, 0, 255⟩]).length).2
      = (max 10 ((cellDims fallbackSettings ([Img.new 1 1 ⟨0, 0, 0, 255⟩]).length).1 - 10),
         max 10 ((cellDims fallbackSettings ([Img.new 1 1 ⟨0, 0, 0, 255⟩]).length).2 - 10), 5) ∧
     10 ≤ max 10 ((cellDims fallbackSettings ([Img.new 1 1 ⟨0, 0, 0, 255⟩]).length).1 - 10) ∧
     10 ≤ max 10 ((cellDims fallbackSettings ([Img.new 1 1 ⟨0, 0, 0, 255⟩]).length).2 - 10) ∧
     composeCanvas trivPrims fallbackSettings [Img.new 1 1 ⟨0, 0, 0, 255⟩]
       = composeCanvasWith trivPrims fallbackSettings [Img.new 1 1 ⟨0, 0, 0, 255⟩]
           (max 10 ((cellDims fallbackSettings ([Img.new 1 1 ⟨0, 0, 0, 255⟩]).length).1 - 10),
            max 10 ((cellDims fallbackSettings ([Img.new 1 1 ⟨0, 0, 0, 255⟩]).length).2 - 10), 5)) :=
  ⟨by decide,
   compose_fallback_spec trivPrims fallbackSettings [Img.new 1 1 ⟨0, 0, 0, 255⟩] (by decide)⟩

/-! ### C8: export of the two formats -/

/-- C8 counterexample: when the PNG write raises (for example a full
disk), `save_collage` propagates that exception at once: only the PNG
write was attempted and the JPG write is never reached, contradicting the
claim that the two formats are attempted independently. -/
theorem save_collage_cex :
    (save_collage (Except.error "disk full") (Except.ok ())).1 = [SaveFormat.png] ∧
    SaveFormat.jpg ∉ (save_collage (Except.error "disk full") (Except.ok ())).1 ∧
    (save_collage (Except.error "disk full") (Except.ok ())).2 = some "disk full" :=
  ⟨rfl, by decide, rfl⟩

/-- C8 amended: `save_collage` writes PNG first and JPG second with no
exception handling, so the JPG write is attempted exactly when the PNG
write succeeded; a JPG failure happens after the PNG was already written,
and the first failure propagates out of the function. -/
theorem save_collage_spec (png jpg : Except String Unit) :
    (save_collage png jpg).1
      = (if png.isOk then [SaveFormat.png, SaveFormat.jpg] else [SaveFormat.png]) ∧
    (SaveFormat.jpg ∈ (save_collage png jpg).1 ↔ png.isOk = true) ∧
    ((save_collage png jpg).2 = none ↔ png.isOk = true ∧ jpg.isOk = true) := by
  rcases png with e | u
  · refine ⟨rfl, ?_, ?_⟩
    · simp [save_collage, Except.isOk, Except.toBool]
    · simp [save_collage, Except.isOk, Except.toBool]
  · rcases jpg with e | u
    · refine ⟨rfl, ?_, ?_⟩
      · simp [save_collage, Except.isOk, Except.toBool]
      · simp [save_collage, Except.isOk, Except.toBool]
    · refine ⟨rfl, ?_, ?_⟩
      · simp [save_collage, Except.isOk, Except.toBool]
      · simp [save_collage, Except.isOk, Except.toBool]

/-! ### C10: Custom shape with no mask path -/

/-- C10: with shape Custom and no mask path, `create_shape_mask` returns
the untouched all-zero mask (not the opaque rectangle fallback), so the
composed canvas — whose alpha band is replaced by that mask — is fully
transparent at every pixel. -/
theorem custom_mask_none_spec (P : PILPrims) (S : CollageSettings)
    (hshape : S.shape = CollageShape.CUSTOM)
    (hpath : S.custom_mask_path = none) :
    create_shape_mask P S.canvas_size S.shape S.custom_mask_path
      = GrayImg.new S.canvas_size.1 S.canvas_size.2 0 ∧
    (∀ loaded x y, ((composeCanvas P S loaded).pix x y).a = 0) ∧
    (∀ decode failed refs canvas,
      (create_collage P S decode failed refs).1 = some canvas →
      ∀ x y, (canvas.pix x y).a = 0) := by
  have hmask : create_shape_mask P S.canvas_size S.shape S.custom_mask_path
      = GrayImg.new S.canvas_size.1 S.canvas_size.2 0 := by
    rw [hshape, hpath]
    rfl
  have halpha : ∀ loaded x y, ((composeCanvas P S loaded).pix x y).a = 0 := by
    intro loaded x y
    unfold composeCanvas composeCanvasWith
    rw [if_pos (by rw [hshape]; exact ⟨by decide, by decide⟩)]
    unfold applyShapeMask
    rw [hmask]
    rfl
  refine ⟨hmask, halpha, ?_⟩
  intro decode failed refs canvas hsome x y
  unfold create_collage at hsome
  by_cases he : (loadPhase decode refs).1.isEmpty
  · rw [if_pos he] at hsome
    cases hsome
  · rw [if_neg he] at hsome
    have hc : canvas = composeCanvas P S (loadPhase decode refs).1 :=
      (Option.some.injEq _ _ ▸ hsome : _).symm
    rw [hc]
    exact halpha _ x y

/-- Witness for C10: a concrete Custom/no-path run of the composer on one
opaque image yields alpha 0 everywhere (checked at pixel (0, 0)). -/
theorem custom_mask_none_witness :
    ((composeCanvas trivPrims customNoneSettings [Img.new 1 1 ⟨1, 1, 1, 255⟩]).pix 0 0).a = 0 :=
  (custom_mask_none_spec trivPrims customNoneSettings rfl rfl).2.1
    [Img.new 1 1 ⟨1, 1, 1, 255⟩] 0 0

/-! ### C9: heart-shape vertex bounds -/

theorem pyInt_le_max (v : ℝ) : (pyInt v : ℝ) ≤ max v 0 := by
  unfold pyInt
  split
  · exact le_max_of_le_left (Int.floor_le v)
  · rename_i h
    push_neg at h
    refine le_max_of_le_right ?_
    have hle : ⌈v⌉ ≤ (0 : Int) := Int.ceil_le.2 (by exact_mod_cast h.le)
    exact_mod_cast hle

theorem min_le_pyInt (v : ℝ) : min v 0 ≤ (pyInt v : ℝ) := by
  unfold pyInt
  split
  · rename_i h
    refine (min_le_right v 0).trans ?_
    exact_mod_cast Int.floor_nonneg.2 h
  · exact (min_le_left v 0).trans (Int.le_ceil v)

theorem pyInt_lt {v : ℝ} {B : Int} (h : max v 0 < (B : ℝ)) : pyInt v < B := by
  have h1 : (pyInt v : ℝ) < (B : ℝ) := lt_of_le_of_lt (pyInt_le_max v) h
  exact_mod_cast h1

theorem lt_pyInt {v : ℝ} {B : Int} (h : (B : ℝ) < min v 0) : B < pyInt v := by
  have h1 : (B : ℝ) < (pyInt v : ℝ) := lt_of_lt_of_le h (min_le_pyInt v)
  exact_mod_cast h1

theorem pyInt_vert_anchor : pyInt (((400 : Int) : ℝ) * 0.45) = 180 := by
  have h1 : ((400 : Int) : ℝ) * 0.45 = ((180 : Int) : ℝ) := by norm_num
  rw [h1]
  unfold pyInt
  rw [if_pos (by norm_num)]
  exact Int.floor_intCast 180

theorem heart_px_bound (t : ℝ) :
    -178 < pyInt (16 * Real.sin t ^ 3 * (((min (400 : Int) 400 : Int) : ℝ) / 2) / 18) ∧
    pyInt (16 * Real.sin t ^ 3 * (((min (400 : Int) 400 : Int) : ℝ) / 2) / 18) < 178 := by
  have hs1 := Real.neg_one_le_sin t
  have hs2 := Real.sin_le_one t
  have hmin : ((min (400 : Int) 400 : Int) : ℝ) = 400 := by norm_num
  set s := Real.sin t with hsdef
  set V := 16 * s ^ 3 * (((min (400 : Int) 400 : Int) : ℝ) / 2) / 18 with hV
  have hq1 : (0 : ℝ) ≤ s ^ 2 + s + 1 := by nlinarith [sq_nonneg (2 * s + 1)]
  have hq2 : (0 : ℝ) ≤ s ^ 2 - s + 1 := by nlinarith [sq_nonneg (2 * s - 1)]
  have hcube_hi : s ^ 3 ≤ 1 := by
    nlinarith [mul_nonneg (by linarith : (0 : ℝ) ≤ 1 - s) hq1]
  have hcube_lo : -1 ≤ s ^ 3 := by
    nlinarith [mul_nonneg (by linarith : (0 : ℝ) ≤ s + 1) hq2]
  have hVeq : V = s ^ 3 * (1600 / 9) := by
    rw [hV, hmin]
    ring
  have hV_hi : V ≤ 1600 / 9 := by
    rw [hVeq]
    nlinarith
  have hV_lo : -(1600 / 9) ≤ V := by
    rw [hVeq]
    nlinarith
  constructor
  · refine lt_pyInt (lt_min ?_ ?_) <;> norm_num
    linarith
  · refine pyInt_lt (max_lt ?_ ?_) <;> norm_num
    linarith

theorem heart_py_bound (t : ℝ) :
    -145 < pyInt (-(13 * Real.cos t - 5 * Real.cos (2 * t) - 2 * Real.cos (3 * t)
      - Real.cos (4 * t)) * (((min (400 : Int) 400 : Int) : ℝ) / 2) / 18) ∧
    pyInt (-(13 * Real.cos t - 5 * Real.cos (2 * t) - 2 * Real.cos (3 * t)
      - Real.cos (4 * t)) * (((min (400 : Int) 400 : Int) : ℝ) / 2) / 18) < 189 := by
  have hc1 := Real.neg_one_le_cos t
  have hc2 := Real.cos_le_one t
  have hmin : ((min (400 : Int) 400 : Int) : ℝ) = 400 := by norm_num
  set c := Real.cos t with hcdef
  have h2 : Real.cos (2 * t) = 2 * c ^ 2 - 1 := Real.cos_two_mul t
  have h3 : Real.cos (3 * t) = 4 * c ^ 3 - 3 * c := Real.cos_three_mul t
  have h4 : Real.cos (4 * t) = 2 * (2 * c ^ 2 - 1) ^ 2 - 1 := by
    have h41 : (4 : ℝ) * t = 2 * (2 * t) := by ring
    rw [h41, Real.cos_two_mul, h2]
  set V := -(13 * c - 5 * Real.cos (2 * t) - 2 * Real.cos (3 * t)
    - Real.cos (4 * t)) * (((min (400 : Int) 400 : Int) : ℝ) / 2) / 18 with hV
  have hVeq : V = (8 * c ^ 4 + 8 * c ^ 3 + 2 * c ^ 2 - 19 * c - 4) * (100 / 9) := by
    rw [hV, hmin, h2, h3, h4]
    ring
  have hp_lo : (-13 : ℝ) ≤ 8 * c ^ 4 + 8 * c ^ 3 + 2 * c ^ 2 - 19 * c - 4 := by
    nlinarith [sq_nonneg (2 * c ^ 2 + c - 1), sq_nonneg (c - 15 / 16)]
  have hfac : (0 : ℝ) ≤ 21 - 2 * c - 8 * c ^ 3 := by
    nlinarith [sq_nonneg (c + 1), sq_nonneg (c - 1), sq_nonneg c]
  have hp_hi : 8 * c ^ 4 + 8 * c ^ 3 + 2 * c ^ 2 - 19 * c - 4 ≤ 17 := by
    nlinarith [mul_nonneg (by linarith : (0 : ℝ) ≤ 1 + c) hfac]
  have hV_hi : V ≤ 1700 / 9 := by
    rw [hVeq]
    nlinarith
  have hV_lo : -(1300 / 9) ≤ V := by
    rw [hVeq]
    nlinarith
  constructor
  · refine lt_pyInt (lt_min ?_ ?_) <;> norm_num
    linarith
  · refine pyInt_lt (max_lt ?_ ?_) <;> norm_num
    linarith

/-- Every heart vertex at any real parameter `t` lies inside the 400x400
canvas. -/
theorem heartPoint_in_bounds (t : ℝ) :
    0 ≤ (heartPoint 400 400 t).1 ∧ (heartPoint 400 400 t).1 < 400 ∧
    0 ≤ (heartPoint 400 400 t).2 ∧ (heartPoint 400 400 t).2 < 400 := by
  have hx := heart_px_bound t
  have hy := heart_py_bound t
  have hfd : (400 : Int).fdiv 2 = 200 := by decide
  unfold heartPoint
  dsimp only
  rw [hfd, pyInt_vert_anchor]
  omega

/-- C9: on a 400x400 canvas, every one of the 360 vertices generated by
the heart-shape construction has both coordinates in `[0, 400)`. -/
theorem heart_points_in_bounds :
    ∀ p ∈ heartPoints 400 400,
      0 ≤ p.1 ∧ p.1 < 400 ∧ 0 ≤ p.2 ∧ p.2 < 400 := by
  intro p hp
  simp only [heartPoints, List.mem_map] at hp
  obtain ⟨i, _, rfl⟩ := hp
  exact heartPoint_in_bounds _

set_option maxRecDepth 10000 in
/-- Witness for C9: the first sampled vertex (`i = 0`) is a member of the
vertex list and lies inside the canvas. -/
theorem heart_points_witness :
    heartPoint 400 400 (((0 : Nat) : ℝ) * Real.pi / 180) ∈ heartPoints 400 400 ∧
    (0 ≤ (heartPoint 400 400 (((0 : Nat) : ℝ) * Real.pi / 180)).1 ∧
      (heartPoint 400 400 (((0 : Nat) : ℝ) * Real.pi / 180)).1 < 400 ∧
      0 ≤ (heartPoint 400 400 (((0 : Nat) : ℝ) * Real.pi / 180)).2 ∧
      (heartPoint 400 400 (((0 : Nat) : ℝ) * Real.pi / 180)).2 < 400) := by
  have hmem : heartPoint 400 400 (((0 : Nat) : ℝ) * Real.pi / 180) ∈ heartPoints 400 400 := by
    unfold heartPoints
    have hmem0 : (0 : Nat) ∈ List.range 360 := List.mem_range.2 (by norm_num)
    exact List.mem_map_of_mem
      (fun i : Nat => heartPoint 400 400 ((i : ℝ) * Real.pi / 180)) hmem0
  exact ⟨hmem, heart_points_in_bounds _ hmem⟩

end Collage
